import Mathlib

/-!
Verification of the reviewbot persistent job queue, retry utility, and review
pipeline orchestration.  The definitions below are a shallow embedding of the
TypeScript source: `src/queue.ts` (PersistentQueue), `src/utils/retry.ts`
(withRetry / isRetryableError), and `src/review/pipeline.ts` (startQueue,
enqueueReview, processReview).  The Postgres `review_jobs` table is modelled as
a `List Job`; each SQL statement becomes a pure function on that list.  The
claim SQL (`UPDATE ... WHERE id = (SELECT ... FOR UPDATE SKIP LOCKED) RETURNING`)
is a single atomic statement in Postgres, so concurrent claim calls serialize;
we model a batch of concurrent claims as a sequence of atomic `claimOne` steps.
-/

namespace ReviewBot

/-- Status enum of the `review_jobs` table (`status` column):
pending, processing, completed, failed. -/
inductive JobStatus where
  | pending
  | processing
  | completed
  | failed
deriving DecidableEq, Repr

/-- Row of the `review_jobs` table (src/db/schema.ts, `reviewJobs`).
Timestamps are modelled as natural numbers. -/
structure Job where
  id : Nat
  installationId : Nat
  repoFullName : String
  owner : String
  repo : String
  prNumber : Nat
  prTitle : String
  commitSha : String
  baseBranch : String
  status : JobStatus
  attempts : Nat
  maxAttempts : Nat
  errorMessage : Option String
  checkRunId : Option Nat
  createdAt : Nat
  startedAt : Option Nat
  completedAt : Option Nat
deriving DecidableEq, Repr

/-- Payload handed to `PersistentQueue.enqueue` (interface `JobData` in
src/queue.ts). -/
structure JobData where
  id : Option Nat
  installationId : Nat
  owner : String
  repo : String
  repoFullName : String
  prNumber : Nat
  prTitle : String
  commitSha : String
  baseBranch : String
deriving DecidableEq, Repr

/-- The fresh row inserted by `PersistentQueue.enqueue`: status `pending` and
the schema defaults `attempts = 0`, `max_attempts = 3`, `created_at = now()`
(src/db/schema.ts). -/
def mkJob (data : JobData) (now newId : Nat) : Job :=
  {
    id := newId
    installationId := data.installationId
    repoFullName := data.repoFullName
    owner := data.owner
    repo := data.repo
    prNumber := data.prNumber
    prTitle := data.prTitle
    commitSha := data.commitSha
    baseBranch := data.baseBranch
    status := .pending
    attempts := 0
    maxAttempts := 3
    errorMessage := none
    checkRunId := none
    createdAt := now
    startedAt := none
    completedAt := none }

/-- Embedding of `PersistentQueue.enqueue` (src/queue.ts lines 34-52): a single
unconditional INSERT of a new `pending` row; no duplicate check of any kind is
performed.  `newId` is the serial id assigned by the database. -/
def enqueue (store : List Job) (data : JobData) (now newId : Nat) : List Job :=
  store ++ [mkJob data now newId]

/-- Shared shape of the row updates: `UPDATE review_jobs SET ... WHERE id = jid`
(ids are the serial primary key, so at most one row matches in a real table). -/
def updateById (store : List Job) (jid : Nat) (f : Job → Job) : List Job :=
  store.map fun r => if r.id = jid then f r else r

/-- The WHERE clause of the claim subquery in `PersistentQueue.poll`
(src/queue.ts lines 92-99): `status = 'pending' AND attempts < max_attempts`
and, when an exclusion set of installation ids is supplied,
`installation_id NOT IN (...)`. -/
def claimable (excl : List Nat) (j : Job) : Bool :=
  j.status = .pending && j.attempts < j.maxAttempts && !(excl.contains j.installationId)

/-- The `SELECT id ... ORDER BY created_at LIMIT 1` subquery: the first
eligible row with minimal `created_at` (ties broken by table order, which SQL
leaves unspecified). -/
def selectOldest (excl : List Nat) : List Job → Option Job
  | [] => none
  | j :: rest =>
    if claimable excl j then
      match selectOldest excl rest with
      | none => some j
      | some k => if j.createdAt ≤ k.createdAt then some j else some k
    else selectOldest excl rest

/-- Embedding of the atomic claim statement in `PersistentQueue.poll`
(src/queue.ts lines 89-101): `UPDATE review_jobs SET status = 'processing',
started_at = NOW() WHERE id = (SELECT ... LIMIT 1 FOR UPDATE SKIP LOCKED)
RETURNING id`.  Returns the claimed id (if any) and the updated table. -/
def claimOne (store : List Job) (excl : List Nat) (now : Nat) :
    Option Nat × List Job :=
  match selectOldest excl store with
  | none => (none, store)
  | some j =>
    (some j.id,
     updateById store j.id fun r =>
       { r with status := .processing, startedAt := some now })

/-- Success branch of `PersistentQueue.processJob` (src/queue.ts lines 142-145):
`SET status = 'completed', completed_at = now WHERE id = job.id`. -/
def processJobSuccess (store : List Job) (job : Job) (now : Nat) : List Job :=
  updateById store job.id fun r =>
    { r with status := .completed, completedAt := some now }

/-- Failure branch of `PersistentQueue.processJob` (src/queue.ts lines 146-160):
`attempts = job.attempts + 1`; `status = attempts >= job.maxAttempts ? 'failed'
: 'pending'`; the error message is recorded and `started_at` is cleared.  The
new counter is computed from the in-memory snapshot `job` the worker holds. -/
def processJobFailure (store : List Job) (job : Job) (msg : String) : List Job :=
  updateById store job.id fun r =>
    { r with
      status := if job.maxAttempts ≤ job.attempts + 1 then .failed else .pending
      attempts := job.attempts + 1
      errorMessage := some msg
      startedAt := none }

/-- Embedding of `PersistentQueue.processJob` (src/queue.ts lines 126-170): the
handler is awaited; if it resolves the job row is marked completed, if it
rejects the failure branch runs with the rejection message. -/
def processJob (store : List Job) (job : Job) (outcome : Except String Unit)
    (now : Nat) : List Job :=
  match outcome with
  | .ok _ => processJobSuccess store job now
  | .error msg => processJobFailure store job msg

/-- Embedding of `PersistentQueue.recoverStaleJobs` (src/queue.ts lines
172-184): `UPDATE review_jobs SET status = 'pending', started_at = NULL WHERE
status = 'processing'`. -/
def recoverStaleJobs (store : List Job) : List Job :=
  store.map fun r =>
    if r.status = .processing then { r with status := .pending, startedAt := none } else r

/-- Embedding of `startQueue` (src/review/pipeline.ts lines 309-315): the queue
calls `recoverStaleJobs()` and only in that promise's continuation calls
`start()`, so the table state at the moment polling begins is the recovered
store, with recovery having run exactly once. -/
def startQueue (store : List Job) : List Job :=
  recoverStaleJobs store

/-- Delay computed by `withRetry` before retrying attempt `attempt`
(src/utils/retry.ts, `Math.min(initialDelayMs * Math.pow(2, attempt - 1),
maxDelayMs)`). -/
def retryDelay (initialDelayMs maxDelayMs attempt : Nat) : Nat :=
  min (initialDelayMs * 2 ^ (attempt - 1)) maxDelayMs

/-- The `retryablePatterns` array of `isRetryableError`
(src/utils/retry.ts). -/
def retryablePatterns : List String :=
  ["rate limit", "timeout", "econnreset", "econnrefused", "socket hang up",
   "503", "502", "429"]

/-- String containment, mirroring JavaScript `message.includes(pattern)`. -/
def containsPat (pat : List Char) : List Char → Bool
  | [] => pat.isEmpty
  | c :: rest => pat.isPrefixOf (c :: rest) || containsPat pat rest

/-- Lower-casing, mirroring JavaScript `message.toLowerCase()` on ASCII
messages. -/
def lowerStr (s : String) : List Char :=
  s.toList.map Char.toLower

/-- Embedding of `isRetryableError` (src/utils/retry.ts): false unless the
value is an `Error` instance; otherwise true iff the lower-cased message
contains one of the fixed retryable patterns. -/
def isRetryableError (isErrorInstance : Bool) (message : String) : Bool :=
  isErrorInstance &&
    retryablePatterns.any fun pat => containsPat pat.toList (lowerStr message)

/-- Result of `enqueueReview` (src/review/pipeline.ts lines 328-340): the
possibly-updated store of the started queue (`none` when no queue was ever
started) together with the error message logged, if any.  The function
returns `void` and is total: a `none` queue handle logs and returns, and a
rejected `enqueue` promise is consumed by `.catch` and logged.  `dbFails`
models the database insert rejecting. -/
def enqueueReview (queue : Option (List Job)) (data : JobData) (now newId : Nat)
    (dbFails : Bool) : Option (List Job) × Option String :=
  match queue with
  | none => (none, some "Queue not started")
  | some store =>
    if dbFails then (some store, some "Failed to enqueue review")
    else (some (enqueue store data now newId), none)

/-- Tuple used by the spec to identify a logical unit of work: tenant
(installation id), external resource (repo + PR number) and content version
(commit SHA). -/
def matchesTuple (data : JobData) (r : Job) : Bool :=
  r.installationId == data.installationId && r.repoFullName == data.repoFullName &&
    r.prNumber == data.prNumber && r.commitSha == data.commitSha

/-- Count of successful claims among `n` claim calls executed against the
store.  Each `claimOne` models one execution of the atomic claim statement;
Postgres serializes the concurrent statements (`FOR UPDATE SKIP LOCKED`), so a
batch of `n` concurrent `poll` calls is `n` sequential atomic claims. -/
def claimCount : Nat → List Job → Nat → Nat
  | 0, _, _ => 0
  | n + 1, store, now =>
    let r := claimOne store [] now
    (if r.fst.isSome then 1 else 0) + claimCount n r.snd now

/-- Row of the `installations` table used by `processReview`
(src/db/schema.ts): internal primary key plus the GitHub installation id. -/
structure Installation where
  id : Nat
  githubInstallationId : Nat
deriving DecidableEq, Repr

/-- Row of the `installation_settings` table as read by `processReview`:
`enabled` and whether all three API-key columns are present
(`apiKeyEncrypted`, `apiKeyIv`, `apiKeyAuthTag`). -/
structure InstallationSettings where
  installationId : Nat
  enabled : Bool
  hasApiKey : Bool
deriving DecidableEq, Repr

/-- Environment of a single `processReview` execution
(src/review/pipeline.ts lines 342-593): database contents plus the outcome of
each externally fallible call.  `reviewBody` is the combined outcome of the
body of the big try block before its terminal check-run update
(fetchRepoConfig, diff fetch and parse, LLM calls, posting the review, and the
`reviews`-table updates).  The four flags model whether the corresponding
check-run API call throws when invoked. -/
structure ReviewEnv where
  installations : List Installation
  settings : List InstallationSettings
  octokitOk : Bool
  createCheckRun : Except String Nat
  inProgressThrows : Bool
  successThrows : Bool
  failedEarlyThrows : Bool
  failedFinalThrows : Bool
  reviewBody : Except String Unit
deriving Repr

/-- An external call that either returns or throws `msg`. -/
def extCall (throws : Bool) (msg : String) : Except String Unit :=
  if throws then .error msg else .ok ()

/-- Lookup `installations` by `github_installation_id` with `.limit(1)`
(src/review/pipeline.ts lines 380-384). -/
def findInstallation (l : List Installation) (ghId : Nat) : Option Installation :=
  l.find? fun i => i.githubInstallationId == ghId

/-- Lookup `installation_settings` by internal installation id with
`.limit(1)` (src/review/pipeline.ts lines 398-402). -/
def findSettings (l : List InstallationSettings) (instId : Nat) : Option InstallationSettings :=
  l.find? fun s => s.installationId == instId

/-- Body of the big try block of `processReview` (lines 450-574): the review
work itself, then — only when a check run exists — `markCheckSuccess`, which
is inside the try block and therefore not individually guarded. -/
def tryBody (env : ReviewEnv) (checkRunId : Option Nat) : Except String Unit :=
  match env.reviewBody with
  | .error e => .error e
  | .ok _ =>
    if checkRunId.isSome then extCall env.successThrows "markCheckSuccess threw"
    else .ok ()

/-- Catch block of `processReview` (lines 575-592): records the failure on the
`reviews` row, then calls `markCheckFailed` WITHOUT a surrounding try/catch;
if that call throws, the handler promise rejects. -/
def catchBlock (env : ReviewEnv) (checkRunId : Option Nat) : Except String Unit :=
  if checkRunId.isSome then extCall env.failedFinalThrows "markCheckFailed threw"
  else .ok ()

/-- Embedding of `processReview` (src/review/pipeline.ts lines 342-593) as the
handler outcome seen by `PersistentQueue.processJob`: `.ok` when the handler
promise resolves, `.error` when it rejects.  Control flow from the source:
`getOctokit` (wrapped in `withRetry`) rejecting propagates; `createCheckRun`
is wrapped in try/catch, a failure just leaves `checkRunId` null; a missing
installation, missing/disabled settings, or missing API key mark the check
run failed inside a try/catch and `return` normally; `markCheckInProgress` is
wrapped in try/catch; then the big try/catch runs (`tryBody`/`catchBlock`). -/
def processReview (env : ReviewEnv) (data : JobData) : Except String Unit :=
  if !env.octokitOk then .error "getOctokit failed"
  else
    let checkRunId : Option Nat := env.createCheckRun.toOption
    match findInstallation env.installations data.installationId with
    | none =>
      let _ := (extCall env.failedEarlyThrows "markCheckFailed threw").toOption
      .ok ()
    | some inst =>
      match findSettings env.settings inst.id with
      | none =>
        let _ := (extCall env.failedEarlyThrows "markCheckFailed threw").toOption
        .ok ()
      | some st =>
        if !st.enabled then
          let _ := (extCall env.failedEarlyThrows "markCheckFailed threw").toOption
          .ok ()
        else if !st.hasApiKey then
          let _ := (extCall env.failedEarlyThrows "markCheckFailed threw").toOption
          .ok ()
        else
          let _ := (extCall env.inProgressThrows "markCheckInProgress threw").toOption
          match tryBody env checkRunId with
          | .ok _ => .ok ()
          | .error _ => catchBlock env checkRunId

/-- Whether `processReview` gets past its preconditions into the review body:
installation found, settings found, enabled, API key present. -/
def preflightPass (env : ReviewEnv) (data : JobData) : Bool :=
  match findInstallation env.installations data.installationId with
  | none => false
  | some inst =>
    match findSettings env.settings inst.id with
    | none => false
    | some st => st.enabled && st.hasApiKey

/-- State of the queue system for the lifecycle claims: the `review_jobs`
table plus the in-memory snapshots (`typedJob` in `poll`) of the jobs
currently held by workers of the single process. -/
structure QState where
  store : List Job
  inFlight : List Job
deriving DecidableEq, Repr

/-- Queue operations: enqueue, claim (one `poll` tick that found a job),
handler success, handler failure, startup recovery. -/
inductive QOp where
  | enqueueOp (data : JobData) (now newId : Nat)
  | claimOp (excl : List Nat) (now : Nat)
  | completeOp (jobId : Nat) (now : Nat)
  | failOp (jobId : Nat) (msg : String)
  | recoverOp
deriving DecidableEq, Repr

/-- One step of the queue system.  Operations that cannot occur in the source
are no-ops: the database never hands out a duplicate serial id; `processJob`
runs only for a job a worker actually claimed; `recoverStaleJobs` runs only at
startup, before polling begins, hence with no in-flight worker. -/
def stepOp (s : QState) : QOp → QState
  | .enqueueOp data now newId =>
    if newId ∈ s.store.map Job.id then s
    else { s with store := enqueue s.store data now newId }
  | .claimOp excl now =>
    match selectOldest excl s.store with
    | none => s
    | some j =>
      { store := (claimOne s.store excl now).snd
        inFlight := { j with status := .processing, startedAt := some now } :: s.inFlight }
  | .completeOp jobId now =>
    match s.inFlight.find? (fun x => x.id == jobId) with
    | none => s
    | some snap =>
      { store := processJobSuccess s.store snap now
        inFlight := s.inFlight.filter fun x => !(x.id == jobId) }
  | .failOp jobId msg =>
    match s.inFlight.find? (fun x => x.id == jobId) with
    | none => s
    | some snap =>
      { store := processJobFailure s.store snap msg
        inFlight := s.inFlight.filter fun x => !(x.id == jobId) }
  | .recoverOp =>
    if s.inFlight.isEmpty then { s with store := recoverStaleJobs s.store } else s

/-- Run a sequence of queue operations. -/
def runOps (s : QState) : List QOp → QState
  | [] => s
  | op :: rest => runOps (stepOp s op) rest

/-- Well-formedness of a queue state: ids are unique (serial primary key),
every row respects the attempts cap, and every in-flight snapshot is a
`processing` row of the table that was claimable when claimed. -/
def WF (s : QState) : Prop :=
  (s.store.map Job.id).Nodup ∧
  (s.inFlight.map Job.id).Nodup ∧
  (∀ j ∈ s.store, j.attempts ≤ j.maxAttempts) ∧
  (∀ snap ∈ s.inFlight,
    snap ∈ s.store ∧ snap.status = .processing ∧ snap.attempts < snap.maxAttempts)

instance (s : QState) : Decidable (WF s) := by
  unfold WF; infer_instance

/-- Sample submission used for concrete instances. -/
def sampleData : JobData :=
  { id := none, installationId := 7, owner := "octo", repo := "webapp",
    repoFullName := "octo/webapp", prNumber := 42, prTitle := "Add feature",
    commitSha := "deadbeef", baseBranch := "main" }

/-- Sample claimed job snapshot (a `processing` row as handed to
`processJob`). -/
def sampleClaimed : Job :=
  { mkJob sampleData 10 1 with status := .processing, startedAt := some 20 }

/-- Row of `sampleClaimed` after one failure update with message "boom". -/
def sampleFailedRow : Job :=
  { sampleClaimed with
    status := .pending
    attempts := 1
    errorMessage := some "boom"
    startedAt := none }

/-- Row of `sampleClaimed` after recovery. -/
def sampleRecoveredRow : Job :=
  { sampleClaimed with status := .pending, startedAt := none }

/-- Row of `sampleClaimed` after a completion update at time 99. -/
def sampleCompletedRow : Job :=
  { sampleClaimed with status := .completed, completedAt := some 99 }

/-- Row of `sampleClaimed` after a failure update caused by a throwing
`markCheckFailed` call. -/
def sampleRequeuedRow : Job :=
  { sampleClaimed with
    status := .pending
    attempts := 1
    errorMessage := some "markCheckFailed threw"
    startedAt := none }

/-- Environment in which the installation of `sampleData` is unknown and
every external call succeeds. -/
def envNoInstall : ReviewEnv :=
  { installations := [], settings := [], octokitOk := true,
    createCheckRun := .ok 900, inProgressThrows := false,
    successThrows := false, failedEarlyThrows := false,
    failedFinalThrows := false, reviewBody := .ok () }

/-- Environment in which the review work succeeds but both terminal check-run
updates (`markCheckSuccess`, then `markCheckFailed` from the catch block)
throw. -/
def envCheckThrows : ReviewEnv :=
  { installations := [{ id := 3, githubInstallationId := 7 }],
    settings := [{ installationId := 3, enabled := true, hasApiKey := true }],
    octokitOk := true, createCheckRun := .ok 900, inProgressThrows := false,
    successThrows := true, failedEarlyThrows := false,
    failedFinalThrows := true, reviewBody := .ok () }

/-- Sample operation sequence: enqueue one job, then claim and fail it three
times (spec Scenario A). -/
def sampleOps : List QOp :=
  [.enqueueOp sampleData 10 1, .claimOp [] 20, .failOp 1 "boom",
   .claimOp [] 30, .failOp 1 "boom2", .claimOp [] 40, .failOp 1 "boom3",
   .claimOp [] 50]

/-! ## Helper lemmas -/

theorem mem_updateById_of_ne {store : List Job} {jid : Nat} {f : Job → Job} {r : Job}
    (h : r ∈ store) (hne : r.id ≠ jid) : r ∈ updateById store jid f := by
  have := List.mem_map_of_mem (fun x => if x.id = jid then f x else x) h
  simpa [updateById, if_neg hne] using this

theorem mem_updateById_self {store : List Job} {jid : Nat} {f : Job → Job} {r : Job}
    (h : r ∈ store) (hid : r.id = jid) : f r ∈ updateById store jid f := by
  have := List.mem_map_of_mem (fun x => if x.id = jid then f x else x) h
  simpa [updateById, if_pos hid] using this

theorem exists_of_mem_updateById {store : List Job} {jid : Nat} {f : Job → Job} {x : Job}
    (h : x ∈ updateById store jid f) :
    ∃ r ∈ store, x = if r.id = jid then f r else r := by
  rcases List.mem_map.mp h with ⟨r, hr, hx⟩
  exact ⟨r, hr, hx.symm⟩

theorem map_id_updateById (store : List Job) (jid : Nat) (f : Job → Job)
    (hf : ∀ r, (f r).id = r.id) :
    (updateById store jid f).map Job.id = store.map Job.id := by
  induction store with
  | nil => rfl
  | cons a t ih =>
    simp only [updateById, List.map_cons] at ih ⊢
    rw [ih]
    by_cases h : a.id = jid
    · rw [if_pos h, hf]
    · rw [if_neg h]

theorem eq_of_mem_of_id_eq {store : List Job} (hnd : (store.map Job.id).Nodup)
    {a b : Job} (ha : a ∈ store) (hb : b ∈ store) (hid : a.id = b.id) : a = b :=
  List.inj_on_of_nodup_map hnd ha hb hid

theorem claimable_pending {excl : List Nat} {j : Job} (h : claimable excl j = true) :
    j.status = .pending ∧ j.attempts < j.maxAttempts := by
  simp only [claimable, Bool.and_eq_true, decide_eq_true_eq, Bool.not_eq_true] at h
  exact ⟨h.1.1, h.1.2⟩

theorem selectOldest_mem {excl : List Nat} :
    ∀ {s : List Job} {j : Job}, selectOldest excl s = some j → j ∈ s := by
  intro s
  induction s with
  | nil => intro j h; simp [selectOldest] at h
  | cons a t ih =>
    intro j h
    simp only [selectOldest] at h
    by_cases hc : claimable excl a
    · rw [if_pos hc] at h
      cases ht : selectOldest excl t with
      | none =>
        rw [ht] at h
        injection h with h
        exact h ▸ List.mem_cons_self a t
      | some k =>
        rw [ht] at h
        dsimp only at h
        by_cases hle : a.createdAt ≤ k.createdAt
        · rw [if_pos hle] at h
          injection h with h
          exact h ▸ List.mem_cons_self a t
        · rw [if_neg hle] at h
          injection h with h
          exact h ▸ List.mem_cons_of_mem a (ih ht)
    · rw [if_neg hc] at h
      exact List.mem_cons_of_mem a (ih h)

theorem selectOldest_claimable {excl : List Nat} :
    ∀ {s : List Job} {j : Job}, selectOldest excl s = some j → claimable excl j = true := by
  intro s
  induction s with
  | nil => intro j h; simp [selectOldest] at h
  | cons a t ih =>
    intro j h
    simp only [selectOldest] at h
    by_cases hc : claimable excl a
    · rw [if_pos hc] at h
      cases ht : selectOldest excl t with
      | none =>
        rw [ht] at h
        injection h with h
        exact h ▸ hc
      | some k =>
        rw [ht] at h
        dsimp only at h
        by_cases hle : a.createdAt ≤ k.createdAt
        · rw [if_pos hle] at h
          injection h with h
          exact h ▸ hc
        · rw [if_neg hle] at h
          injection h with h
          exact h ▸ ih ht
    · rw [if_neg hc] at h
      exact ih h

theorem selectOldest_eq_none {excl : List Nat} :
    ∀ {s : List Job}, selectOldest excl s = none ↔ ∀ k ∈ s, claimable excl k = false := by
  intro s
  induction s with
  | nil => simp [selectOldest]
  | cons a t ih =>
    simp only [selectOldest]
    by_cases hc : claimable excl a
    · rw [if_pos hc]
      constructor
      · intro h
        cases ht : selectOldest excl t with
        | none => rw [ht] at h; exact absurd h (by simp)
        | some k =>
          rw [ht] at h
          dsimp only at h
          by_cases hle : a.createdAt ≤ k.createdAt
          · rw [if_pos hle] at h; exact absurd h (by simp)
          · rw [if_neg hle] at h; exact absurd h (by simp)
      · intro h
        exact absurd hc (by simp [h a (List.mem_cons_self a t)])
    · rw [if_neg hc]
      rw [ih]
      constructor
      · intro h k hk
        rcases List.mem_cons.mp hk with rfl | hk
        · exact Bool.not_eq_true _ ▸ (by simpa using hc)
        · exact h k hk
      · intro h k hk
        exact h k (List.mem_cons_of_mem a hk)

theorem selectOldest_min {excl : List Nat} :
    ∀ {s : List Job} {j : Job}, selectOldest excl s = some j →
      ∀ k ∈ s, claimable excl k = true → j.createdAt ≤ k.createdAt := by
  intro s
  induction s with
  | nil => intro j h; simp [selectOldest] at h
  | cons a t ih =>
    intro j h k hk hck
    simp only [selectOldest] at h
    by_cases hc : claimable excl a
    · rw [if_pos hc] at h
      cases ht : selectOldest excl t with
      | none =>
        rw [ht] at h
        injection h with h
        subst h
        rcases List.mem_cons.mp hk with rfl | hk
        · exact le_refl _
        · exact absurd hck (by simp [selectOldest_eq_none.mp ht k hk])
      | some k0 =>
        rw [ht] at h
        dsimp only at h
        by_cases hle : a.createdAt ≤ k0.createdAt
        · rw [if_pos hle] at h
          injection h with h
          subst h
          rcases List.mem_cons.mp hk with rfl | hk
          · exact le_refl _
          · exact le_trans hle (ih ht k hk hck)
        · rw [if_neg hle] at h
          injection h with h
          subst h
          rcases List.mem_cons.mp hk with rfl | hk
          · exact le_of_lt (lt_of_not_le hle)
          · exact ih ht k hk hck
    · rw [if_neg hc] at h
      rcases List.mem_cons.mp hk with rfl | hk
      · exact absurd hck (by simp [hc])
      · exact ih h k hk hck

theorem claimCount_of_no_claimable {s : List Job}
    (h : ∀ k ∈ s, claimable [] k = false) :
    ∀ (n now : Nat), claimCount n s now = 0 := by
  intro n
  induction n with
  | zero => intro now; rfl
  | succ m ih =>
    intro now
    have hsel : selectOldest [] s = none := selectOldest_eq_none.mpr h
    simp only [claimCount, claimOne, hsel]
    simpa using ih now

/-! ## Claim theorems -/

/-- C8: for every attempt number n ≥ 1 the backoff policy returns
`min(initialDelay * 2^(n-1), maxDelay)`; with initial delay 1000 ms and max
delay 10000 ms the attempt sequence yields 1000, 2000, 4000, 8000, 10000,
10000, and 10000 for every later attempt. -/
theorem retryDelay_spec :
    (∀ (i m n : Nat), 1 ≤ n → retryDelay i m n = min (i * 2 ^ (n - 1)) m) ∧
    retryDelay 1000 10000 1 = 1000 ∧ retryDelay 1000 10000 2 = 2000 ∧
    retryDelay 1000 10000 3 = 4000 ∧ retryDelay 1000 10000 4 = 8000 ∧
    retryDelay 1000 10000 5 = 10000 ∧ retryDelay 1000 10000 6 = 10000 ∧
    (∀ n, 5 ≤ n → retryDelay 1000 10000 n = 10000) := by
  refine ⟨fun i m n _ => rfl, by decide, by decide, by decide, by decide,
    by decide, by decide, ?_⟩
  intro n hn
  have h4 : 4 ≤ n - 1 := by omega
  have hpow : (2 : Nat) ^ 4 ≤ 2 ^ (n - 1) := Nat.pow_le_pow_right (by decide) h4
  have : 10000 ≤ 1000 * 2 ^ (n - 1) := by
    calc 10000 ≤ 1000 * 2 ^ 4 := by decide
    _ ≤ 1000 * 2 ^ (n - 1) := Nat.mul_le_mul_left 1000 hpow
  simpa [retryDelay] using Nat.min_eq_right this

/-- C8 witness: the general formula at n = 3 and the saturated tail at
n = 9. -/
theorem retryDelay_spec_witness :
    retryDelay 1000 10000 3 = min (1000 * 2 ^ 2) 10000 ∧
    retryDelay 1000 10000 9 = 10000 :=
  ⟨retryDelay_spec.1 1000 10000 3 (by decide),
   retryDelay_spec.2.2.2.2.2.2.2 9 (by decide)⟩

/-- C9 counterexample: an upstream 5xx-class response whose message is
"Request failed with status code 500" is classified NOT retryable, refuting
the claim that every failure indicating an upstream 5xx-class response is
classified transient (the pattern list contains only "503" and "502"). -/
theorem isRetryableError_500_not_transient :
    isRetryableError true "Request failed with status code 500" = false := by
  decide

/-- C9 amended: `isRetryableError` returns true exactly when the failure is an
`Error` whose lower-cased message contains one of the fixed substrings
"rate limit", "timeout", "econnreset", "econnrefused", "socket hang up",
"503", "502", "429"; in particular 502/503/429 and network-reset failures are
transient, while a 5xx response without those substrings (e.g. a bare 500)
and every non-`Error` failure are permanent. -/
theorem isRetryableError_spec :
    (∀ (b : Bool) (msg : String),
      isRetryableError b msg = true ↔
        b = true ∧ ∃ pat ∈ retryablePatterns,
          containsPat pat.toList (lowerStr msg) = true) ∧
    isRetryableError true "connect ECONNRESET 10.0.0.1:443" = true ∧
    isRetryableError true "connect ECONNREFUSED" = true ∧
    isRetryableError true "API rate limit exceeded" = true ∧
    isRetryableError true "Request failed with status code 503" = true ∧
    isRetryableError true "Request failed with status code 502" = true ∧
    isRetryableError true "Request failed with status code 429" = true ∧
    isRetryableError true "Gateway Timeout" = true ∧
    isRetryableError true "socket hang up" = true ∧
    isRetryableError true "Request failed with status code 500" = false ∧
    isRetryableError true "Unexpected token in JSON at position 0" = false ∧
    isRetryableError false "503 Service Unavailable" = false := by
  refine ⟨?_, by decide, by decide, by decide, by decide, by decide, by decide,
    by decide, by decide, by decide, by decide, by decide⟩
  intro b msg
  simp [isRetryableError, List.any_eq_true]

/-- C10: calling `enqueueReview` before `startQueue` (queue handle null) logs
"Queue not started" and returns without inserting any row; the embedding is a
total function, matching the source's `void` return that never throws (a
rejected insert is consumed by `.catch` and logged, leaving the store
unchanged). -/
theorem enqueueReview_not_started :
    (∀ (data : JobData) (now newId : Nat) (dbFails : Bool),
      (enqueueReview none data now newId dbFails).fst = none ∧
      (enqueueReview none data now newId dbFails).snd = some "Queue not started") ∧
    (∀ (store : List Job) (data : JobData) (now newId : Nat),
      (enqueueReview (some store) data now newId true).fst = some store ∧
      (enqueueReview (some store) data now newId true).snd =
        some "Failed to enqueue review") :=
  ⟨fun _ _ _ _ => ⟨rfl, rfl⟩, fun _ _ _ _ => ⟨rfl, rfl⟩⟩

/-- C2 counterexample: enqueuing the same tenant/resource/revision tuple a
second time while the first job is still `pending` DOES create a second row —
the store then holds two rows matching the tuple, refuting the claimed
idempotency (no duplicate check exists in the enqueue path; the 5-minute
dedup window appears only in the sprint-04 planning document). -/
theorem enqueue_duplicate_while_pending :
    (mkJob sampleData 10 1).status = JobStatus.pending ∧
    List.countP (matchesTuple sampleData)
      (enqueue (enqueue [] sampleData 10 1) sampleData 11 2) = 2 := by
  decide

/-- C2 amended: `enqueue` performs an unconditional insert — every call
appends exactly one new `pending` row for the submitted tuple, regardless of
what the store already contains (a matching pending, active, or recently
completed job included), so re-submission always creates a new row. -/
theorem enqueue_always_inserts :
    ∀ (store : List Job) (data : JobData) (now newId : Nat),
      enqueue store data now newId = store ++ [mkJob data now newId] ∧
      List.countP (matchesTuple data) (enqueue store data now newId) =
        List.countP (matchesTuple data) store + 1 ∧
      (mkJob data now newId).status = JobStatus.pending := by
  intro store data now newId
  refine ⟨rfl, ?_, rfl⟩
  have hm : matchesTuple data (mkJob data now newId) = true := by
    simp [matchesTuple, mkJob]
  simp [enqueue, List.countP_append, List.countP_cons, hm]

/-- C1: the claim statement selects at most one job — one that is `pending`
with `attempts < max_attempts` and whose installation is not excluded, oldest
first by creation time — transitions it to `processing` stamping a start time
and leaving all other rows unchanged; and because the statement is atomic
(concurrent claims serialize), of N ≥ 1 claim calls against a store whose only
pending job is claimable, exactly one call receives a job and the rest receive
none. -/
theorem poll_claim_spec :
    (∀ (store : List Job) (excl : List Nat) (now jid : Nat),
      (claimOne store excl now).fst = some jid →
      ∃ j ∈ store, j.id = jid ∧ claimable excl j = true ∧
        (∀ k ∈ store, claimable excl k = true → j.createdAt ≤ k.createdAt) ∧
        { j with status := .processing, startedAt := some now } ∈
          (claimOne store excl now).snd ∧
        ∀ r ∈ store, r.id ≠ jid → r ∈ (claimOne store excl now).snd) ∧
    (∀ (store : List Job) (j : Job) (now n : Nat),
      store.filter (fun r => r.status == JobStatus.pending) = [j] →
      claimable [] j = true → 1 ≤ n →
      claimCount n store now = 1) := by
  constructor
  · intro store excl now jid hfst
    cases hsel : selectOldest excl store with
    | none => simp [claimOne, hsel] at hfst
    | some j =>
      have hmem := selectOldest_mem hsel
      have hcl := selectOldest_claimable hsel
      have hmin := selectOldest_min hsel
      have hfst2 : (claimOne store excl now).fst = some j.id := by
        simp [claimOne, hsel]
      have hid : j.id = jid := by
        rw [hfst2] at hfst
        injection hfst
      have hsnd : (claimOne store excl now).snd =
          updateById store j.id
            (fun r => { r with status := .processing, startedAt := some now }) := by
        simp [claimOne, hsel]
      subst hid
      refine ⟨j, hmem, rfl, hcl, hmin, ?_, ?_⟩
      · rw [hsnd]
        exact mem_updateById_self hmem rfl
      · intro r hr hne
        rw [hsnd]
        exact mem_updateById_of_ne hr hne
  · intro store j now n hfilter hcl hn
    have hjmem : j ∈ store := by
      have hmem : j ∈ store.filter (fun r => r.status == JobStatus.pending) := by
        rw [hfilter]
        exact List.mem_singleton.mpr rfl
      exact (List.mem_filter.mp hmem).1
    have hpend : ∀ r ∈ store, r.status = .pending → r = j := by
      intro r hr hrs
      have hmem : r ∈ store.filter (fun x => x.status == JobStatus.pending) :=
        List.mem_filter.mpr ⟨hr, by simp [hrs]⟩
      rw [hfilter] at hmem
      exact List.mem_singleton.mp hmem
    cases hsel : selectOldest [] store with
    | none =>
      exact absurd hcl (by simp [selectOldest_eq_none.mp hsel j hjmem])
    | some j0 =>
      have hj0 : j0 = j :=
        hpend j0 (selectOldest_mem hsel)
          (claimable_pending (selectOldest_claimable hsel)).1
      subst hj0
      obtain ⟨m, rfl⟩ : ∃ m, n = m + 1 := ⟨n - 1, by omega⟩
      simp only [claimCount, claimOne, hsel]
      have hnone : ∀ k ∈ updateById store j0.id
          (fun r => { r with status := .processing, startedAt := some now }),
          claimable [] k = false := by
        intro k hk
        cases hb : claimable [] k with
        | false => rfl
        | true =>
          exfalso
          rcases exists_of_mem_updateById hk with ⟨r, hr, hkeq⟩
          by_cases hc : r.id = j0.id
          · rw [if_pos hc] at hkeq
            subst hkeq
            have := (claimable_pending hb).1
            simp at this
          · rw [if_neg hc] at hkeq
            subst hkeq
            exact hc ((hpend k hr (claimable_pending hb).1) ▸ rfl)
      rw [claimCount_of_no_claimable hnone m now]
      simp

/-- C1 witness: one pending claimable job; the first of three claim calls
receives it (oldest, marked processing with start time 20) and the total
number of successful claims is exactly one. -/
theorem poll_claim_spec_witness :
    (∃ j ∈ [mkJob sampleData 10 1], j.id = 1 ∧ claimable [] j = true ∧
      (∀ k ∈ [mkJob sampleData 10 1],
        claimable [] k = true → j.createdAt ≤ k.createdAt) ∧
      { j with status := .processing, startedAt := some 20 } ∈
        (claimOne [mkJob sampleData 10 1] [] 20).snd ∧
      ∀ r ∈ [mkJob sampleData 10 1], r.id ≠ 1 →
        r ∈ (claimOne [mkJob sampleData 10 1] [] 20).snd) ∧
    claimCount 3 [mkJob sampleData 10 1] 20 = 1 :=
  ⟨poll_claim_spec.1 [mkJob sampleData 10 1] [] 20 1 (by decide),
   poll_claim_spec.2 [mkJob sampleData 10 1] (mkJob sampleData 10 1) 20 3
     (by decide) (by decide) (by decide)⟩

/-- C3: on handler failure, the updated row's attempt counter is exactly the
snapshot's counter plus one; if that has reached `max_attempts` the status
becomes `failed`, otherwise `pending`; in both cases the error message is
recorded and the start time cleared, and rows of other jobs are untouched. -/
theorem processJobFailure_spec :
    ∀ (store : List Job) (job : Job) (msg : String),
      (∀ r ∈ store, r.id ≠ job.id → r ∈ processJobFailure store job msg) ∧
      (∀ r2 ∈ processJobFailure store job msg,
        (r2.id ≠ job.id ∧ r2 ∈ store) ∨
        (r2.id = job.id ∧ r2.attempts = job.attempts + 1 ∧
         r2.errorMessage = some msg ∧ r2.startedAt = none ∧
         (job.maxAttempts ≤ job.attempts + 1 → r2.status = .failed) ∧
         (job.attempts + 1 < job.maxAttempts → r2.status = .pending))) := by
  intro store job msg
  constructor
  · intro r hr hne
    exact mem_updateById_of_ne hr hne
  · intro r2 h2
    rcases exists_of_mem_updateById h2 with ⟨r, hr, heq⟩
    by_cases hc : r.id = job.id
    · right
      rw [if_pos hc] at heq
      subst heq
      refine ⟨hc, rfl, rfl, rfl, ?_, ?_⟩
      · intro hle
        simp only [if_pos hle]
      · intro hlt
        simp only [if_neg (by omega : ¬ job.maxAttempts ≤ job.attempts + 1)]
    · left
      rw [if_neg hc] at heq
      subst heq
      exact ⟨hc, hr⟩

/-- C3 witness: a second job's row survives a failure update of the first
unchanged, and the updated row of the failed job itself satisfies the
failure-branch contract. -/
theorem processJobFailure_spec_witness :
    mkJob sampleData 11 2 ∈
      processJobFailure [sampleClaimed, mkJob sampleData 11 2] sampleClaimed "boom" ∧
    ((sampleFailedRow.id ≠ sampleClaimed.id ∧ sampleFailedRow ∈ [sampleClaimed]) ∨
     (sampleFailedRow.id = sampleClaimed.id ∧
      sampleFailedRow.attempts = sampleClaimed.attempts + 1 ∧
      sampleFailedRow.errorMessage = some "boom" ∧
      sampleFailedRow.startedAt = none ∧
      (sampleClaimed.maxAttempts ≤ sampleClaimed.attempts + 1 →
        sampleFailedRow.status = .failed) ∧
      (sampleClaimed.attempts + 1 < sampleClaimed.maxAttempts →
        sampleFailedRow.status = .pending))) :=
  ⟨(processJobFailure_spec [sampleClaimed, mkJob sampleData 11 2] sampleClaimed
      "boom").1 (mkJob sampleData 11 2) (by decide) (by decide),
   (processJobFailure_spec [sampleClaimed] sampleClaimed "boom").2
     sampleFailedRow (by decide)⟩

/-- C6: after `recoverStaleJobs` no row is `processing`; every previously
`processing` row is now `pending` with its start time cleared and every other
row is unchanged (the two lists correspond pointwise); and `startQueue` begins
polling on exactly the once-recovered store. -/
theorem recoverStaleJobs_spec :
    ∀ (store : List Job),
      (∀ r ∈ recoverStaleJobs store, r.status ≠ .processing) ∧
      List.Forall₂
        (fun r r2 =>
          (r.status = .processing →
            r2 = { r with status := .pending, startedAt := none }) ∧
          (r.status ≠ .processing → r2 = r))
        store (recoverStaleJobs store) ∧
      startQueue store = recoverStaleJobs store := by
  intro store
  refine ⟨?_, ?_, rfl⟩
  · intro r hr
    rcases List.mem_map.mp hr with ⟨r0, _, heq⟩
    by_cases h : r0.status = .processing
    · rw [if_pos h] at heq
      rw [← heq]
      simp
    · rw [if_neg h] at heq
      rw [← heq]
      exact h
  · induction store with
    | nil => exact List.Forall₂.nil
    | cons a t ih =>
      refine List.Forall₂.cons ⟨?_, ?_⟩ ih
      · intro h
        simp only [if_pos h]
      · intro h
        simp only [if_neg h]

/-- C6 witness: recovering a one-row store whose row is `processing` yields a
row that is not `processing`. -/
theorem recoverStaleJobs_spec_witness :
    sampleRecoveredRow.status ≠ JobStatus.processing :=
  (recoverStaleJobs_spec [sampleClaimed]).1 sampleRecoveredRow (by decide)

/-- C4 counterexample: a claimed job whose installation is unknown
(`envNoInstall` has no installations) ends with its persisted record in status
`completed` — not `failed` as the claim states — because `processReview`
returns normally after best-effort marking the check run failed, and
`processJob` then runs its success branch. -/
theorem missing_installation_job_completed :
    processJob [sampleClaimed] sampleClaimed (processReview envNoInstall sampleData) 99 =
      [sampleCompletedRow] ∧
    JobStatus.completed ≠ JobStatus.failed := by
  constructor
  · rfl
  · decide

/-- C4 amended: for every claimed job whose installation is absent or whose
tenant is disabled, the handler resolves normally (the failure is reported
only on the external check run), so the job's persisted record ends in
`completed` — a terminal state that is never retried and consumes no further
attempts — rather than `failed` or `pending`. -/
theorem misconfigured_tenant_completes :
    ∀ (env : ReviewEnv) (data : JobData),
      env.octokitOk = true →
      (findInstallation env.installations data.installationId = none ∨
        ∃ inst, findInstallation env.installations data.installationId = some inst ∧
          (findSettings env.settings inst.id = none ∨
            ∃ st, findSettings env.settings inst.id = some st ∧ st.enabled = false)) →
      processReview env data = .ok () ∧
      ∀ (store : List Job) (job : Job) (now : Nat),
        processJob store job (processReview env data) now =
          processJobSuccess store job now ∧
        (job ∈ store →
          { job with status := .completed, completedAt := some now } ∈
            processJob store job (processReview env data) now) := by
  intro env data hok hpre
  have hrev : processReview env data = .ok () := by
    rcases hpre with hnone | ⟨inst, hinst, hrest⟩
    · simp [processReview, hok, hnone]
    · rcases hrest with hsnone | ⟨st, hst, hdis⟩
      · simp [processReview, hok, hinst, hsnone]
      · simp [processReview, hok, hinst, hst, hdis]
  refine ⟨hrev, ?_⟩
  intro store job now
  rw [hrev]
  exact ⟨rfl, fun hmem => mem_updateById_self hmem rfl⟩

/-- C4 amended witness: the handler of `envNoInstall` resolves normally. -/
theorem misconfigured_tenant_completes_witness :
    processReview envNoInstall sampleData = .ok () :=
  (misconfigured_tenant_completes envNoInstall sampleData rfl (Or.inl rfl)).1

/-- C5 counterexample: in `envCheckThrows` the review work succeeds
(`reviewBody = .ok`), but `markCheckSuccess` throws, the pipeline's catch
block runs, its unguarded `markCheckFailed` also throws, the handler rejects,
and the job is recorded `pending` with `attempts` incremented — not
`completed` — so a status-object update failure does change the recorded
outcome, refuting the claim. -/
theorem terminal_check_update_flips_outcome :
    envCheckThrows.reviewBody = .ok () ∧
    processJob [sampleClaimed] sampleClaimed (processReview envCheckThrows sampleData) 99 =
      [sampleRequeuedRow] ∧
    JobStatus.pending ≠ JobStatus.completed := by
  refine ⟨rfl, ?_, by decide⟩
  rfl

/-- C5 amended: check-run update failures during creation, in-progress
marking, and the early-exit failure paths are caught and never affect the
handler outcome; and when the final catch-side `markCheckFailed` does not
throw, a successful work function always yields a resolving handler (job
recorded completed).  But the terminal updates are not individually guarded:
when the review work succeeds, `markCheckSuccess` throws, and the catch
block's `markCheckFailed` also throws, the handler rejects and the job is
recorded via the failure branch (`pending`/`failed`, attempts incremented)
instead of completed. -/
theorem checkrun_update_guarding_spec :
    (∀ (env : ReviewEnv) (data : JobData) (b c : Bool),
      processReview { env with inProgressThrows := b, failedEarlyThrows := c } data =
        processReview env data) ∧
    (∀ (env : ReviewEnv) (data : JobData),
      env.octokitOk = true → env.reviewBody = .ok () →
      env.failedFinalThrows = false →
      processReview env data = .ok ()) ∧
    (∀ (env : ReviewEnv) (data : JobData) (cid : Nat),
      env.octokitOk = true → preflightPass env data = true →
      env.createCheckRun = .ok cid →
      env.reviewBody = .ok () → env.successThrows = true →
      env.failedFinalThrows = true →
      processReview env data = .error "markCheckFailed threw" ∧
      ∀ (store : List Job) (job : Job) (now : Nat),
        processJob store job (processReview env data) now =
          processJobFailure store job "markCheckFailed threw") := by
  refine ⟨fun env data b c => rfl, ?_, ?_⟩
  · intro env data hok hbody hff
    cases hfi : findInstallation env.installations data.installationId with
    | none => simp [processReview, hok, hfi]
    | some inst =>
      cases hfs : findSettings env.settings inst.id with
      | none => simp [processReview, hok, hfi, hfs]
      | some st =>
        cases hen : st.enabled with
        | false => simp [processReview, hok, hfi, hfs, hen]
        | true =>
          cases hkey : st.hasApiKey with
          | false => simp [processReview, hok, hfi, hfs, hen, hkey]
          | true =>
            cases hcr : env.createCheckRun <;> cases hs : env.successThrows <;>
              simp [processReview, hok, hfi, hfs, hen, hkey, tryBody, catchBlock,
                extCall, Except.toOption, hbody, hff, hcr, hs]
  · intro env data cid hok hpf hcr hbody hs hff
    unfold preflightPass at hpf
    cases hfi : findInstallation env.installations data.installationId with
    | none => rw [hfi] at hpf; simp at hpf
    | some inst =>
      rw [hfi] at hpf
      dsimp only at hpf
      cases hfs : findSettings env.settings inst.id with
      | none => rw [hfs] at hpf; simp at hpf
      | some st =>
        rw [hfs] at hpf
        dsimp only at hpf
        rw [Bool.and_eq_true] at hpf
        have herr : processReview env data = .error "markCheckFailed threw" := by
          simp [processReview, hok, hfi, hfs, hpf.1, hpf.2, tryBody, catchBlock,
            extCall, Except.toOption, hbody, hcr, hs, hff]
        exact ⟨herr, fun store job now => by rw [herr]; rfl⟩

/-- C5 amended witness: the guarded flags do not change the outcome of
`envCheckThrows`; with the terminal updates not throwing the handler of the
same environment resolves; and with both terminal updates throwing it rejects
with the check-run error. -/
theorem checkrun_update_guarding_witness :
    processReview
        { envCheckThrows with inProgressThrows := true, failedEarlyThrows := true }
        sampleData = processReview envCheckThrows sampleData ∧
    processReview
        { envCheckThrows with successThrows := false, failedFinalThrows := false }
        sampleData = .ok () ∧
    processReview envCheckThrows sampleData = .error "markCheckFailed threw" :=
  ⟨checkrun_update_guarding_spec.1 envCheckThrows sampleData true true,
   checkrun_update_guarding_spec.2.1
     { envCheckThrows with successThrows := false, failedFinalThrows := false }
     sampleData rfl rfl rfl,
   (checkrun_update_guarding_spec.2.2 envCheckThrows sampleData 900
     rfl rfl rfl rfl rfl rfl).1⟩

/-! ## Lifecycle invariant lemmas -/

theorem map_id_recoverStaleJobs (store : List Job) :
    (recoverStaleJobs store).map Job.id = store.map Job.id := by
  induction store with
  | nil => rfl
  | cons a t ih =>
    simp only [recoverStaleJobs, List.map_cons] at ih ⊢
    rw [ih]
    by_cases h : a.status = .processing
    · rw [if_pos h]
    · rw [if_neg h]

theorem stepOp_WF (s : QState) (op : QOp) (h : WF s) : WF (stepOp s op) := by
  obtain ⟨h1, h2, h3, h4⟩ := h
  cases op with
  | enqueueOp data now newId =>
    simp only [stepOp]
    by_cases hmem : newId ∈ s.store.map Job.id
    · rw [if_pos hmem]
      exact ⟨h1, h2, h3, h4⟩
    · rw [if_neg hmem]
      refine ⟨?_, h2, ?_, ?_⟩
      · dsimp only
        simp only [enqueue, List.map_append]
        rw [List.nodup_append]
        refine ⟨h1, by simp, ?_⟩
        intro a ha hb
        simp only [List.map_cons, List.map_nil, List.mem_singleton] at hb
        subst hb
        exact hmem ha
      · intro j hj
        rcases List.mem_append.mp hj with hj | hj
        · exact h3 j hj
        · simp only [List.mem_singleton] at hj
          subst hj
          simp [mkJob]
      · intro snap hsnap
        obtain ⟨hs1, hs2, hs3⟩ := h4 snap hsnap
        exact ⟨List.mem_append_left _ hs1, hs2, hs3⟩
  | claimOp excl now =>
    simp only [stepOp]
    cases hsel : selectOldest excl s.store with
    | none => exact ⟨h1, h2, h3, h4⟩
    | some j =>
      dsimp only
      have hjmem := selectOldest_mem hsel
      have hjcl := claimable_pending (selectOldest_claimable hsel)
      have hsnd : (claimOne s.store excl now).snd =
          updateById s.store j.id
            (fun r => { r with status := .processing, startedAt := some now }) := by
        simp [claimOne, hsel]
      rw [hsnd]
      refine ⟨?_, ?_, ?_, ?_⟩
      · dsimp only
        rw [map_id_updateById s.store j.id
          (fun r => { r with status := .processing, startedAt := some now })
          (fun r => rfl)]
        exact h1
      · dsimp only
        simp only [List.map_cons, List.nodup_cons]
        refine ⟨?_, h2⟩
        intro hmem
        rcases List.mem_map.mp hmem with ⟨snap0, hsnap0, hid⟩
        obtain ⟨ha, hb, _⟩ := h4 snap0 hsnap0
        have heq : snap0 = j := eq_of_mem_of_id_eq h1 ha hjmem hid
        rw [heq] at hb
        rw [hjcl.1] at hb
        exact absurd hb (by decide)
      · intro r hr
        rcases exists_of_mem_updateById hr with ⟨r0, hr0, heq⟩
        by_cases hc : r0.id = j.id
        · rw [if_pos hc] at heq
          subst heq
          exact h3 r0 hr0
        · rw [if_neg hc] at heq
          subst heq
          exact h3 _ hr0
      · intro snap hsnap
        rcases List.mem_cons.mp hsnap with rfl | hsnap
        · exact ⟨mem_updateById_self hjmem rfl, rfl, hjcl.2⟩
        · obtain ⟨hs1, hs2, hs3⟩ := h4 snap hsnap
          have hne : snap.id ≠ j.id := by
            intro hid
            have heq := eq_of_mem_of_id_eq h1 hs1 hjmem hid
            rw [heq, hjcl.1] at hs2
            exact absurd hs2 (by decide)
          exact ⟨mem_updateById_of_ne hs1 hne, hs2, hs3⟩
  | completeOp jobId now =>
    simp only [stepOp]
    cases hfind : s.inFlight.find? (fun x => x.id == jobId) with
    | none => exact ⟨h1, h2, h3, h4⟩
    | some snap =>
      dsimp only
      have hsnapf : snap ∈ s.inFlight := List.mem_of_find?_eq_some hfind
      have hsnapid : snap.id = jobId := by
        have hb := List.find?_some hfind
        simpa using hb
      obtain ⟨hsnap1, hsnap2, hsnap3⟩ := h4 snap hsnapf
      refine ⟨?_, ?_, ?_, ?_⟩
      · dsimp only
        rw [processJobSuccess, map_id_updateById s.store snap.id
          (fun r => { r with status := .completed, completedAt := some now })
          (fun r => rfl)]
        exact h1
      · exact List.Nodup.sublist ((List.filter_sublist _).map Job.id) h2
      · intro r hr
        rcases exists_of_mem_updateById hr with ⟨r0, hr0, heq⟩
        by_cases hc : r0.id = snap.id
        · rw [if_pos hc] at heq
          subst heq
          exact h3 r0 hr0
        · rw [if_neg hc] at heq
          subst heq
          exact h3 _ hr0
      · intro snap0 hsnap0
        have hmf := List.mem_filter.mp hsnap0
        have hne : snap0.id ≠ snap.id := by
          have hq := hmf.2
          simp only [Bool.not_eq_eq_eq_not, Bool.not_true, beq_eq_false_iff_ne,
            ne_eq] at hq
          rw [hsnapid]
          exact hq
        obtain ⟨ha, hb, hc2⟩ := h4 snap0 hmf.1
        exact ⟨mem_updateById_of_ne ha hne, hb, hc2⟩
  | failOp jobId msg =>
    simp only [stepOp]
    cases hfind : s.inFlight.find? (fun x => x.id == jobId) with
    | none => exact ⟨h1, h2, h3, h4⟩
    | some snap =>
      dsimp only
      have hsnapf : snap ∈ s.inFlight := List.mem_of_find?_eq_some hfind
      have hsnapid : snap.id = jobId := by
        have hb := List.find?_some hfind
        simpa using hb
      obtain ⟨hsnap1, hsnap2, hsnap3⟩ := h4 snap hsnapf
      refine ⟨?_, ?_, ?_, ?_⟩
      · dsimp only
        rw [processJobFailure, map_id_updateById s.store snap.id
          (fun r =>
            { r with
              status := if snap.maxAttempts ≤ snap.attempts + 1
                then JobStatus.failed else JobStatus.pending
              attempts := snap.attempts + 1
              errorMessage := some msg
              startedAt := none })
          (fun r => rfl)]
        exact h1
      · exact List.Nodup.sublist ((List.filter_sublist _).map Job.id) h2
      · intro r hr
        rcases exists_of_mem_updateById hr with ⟨r0, hr0, heq⟩
        by_cases hc : r0.id = snap.id
        · rw [if_pos hc] at heq
          subst heq
          have hr0s : r0 = snap := eq_of_mem_of_id_eq h1 hr0 hsnap1 hc
          rw [hr0s]
          exact hsnap3
        · rw [if_neg hc] at heq
          subst heq
          exact h3 _ hr0
      · intro snap0 hsnap0
        have hmf := List.mem_filter.mp hsnap0
        have hne : snap0.id ≠ snap.id := by
          have hq := hmf.2
          simp only [Bool.not_eq_eq_eq_not, Bool.not_true, beq_eq_false_iff_ne,
            ne_eq] at hq
          rw [hsnapid]
          exact hq
        obtain ⟨ha, hb, hc2⟩ := h4 snap0 hmf.1
        exact ⟨mem_updateById_of_ne ha hne, hb, hc2⟩
  | recoverOp =>
    simp only [stepOp]
    cases he : s.inFlight.isEmpty with
    | false => exact ⟨h1, h2, h3, h4⟩
    | true =>
      have hnil : s.inFlight = [] := List.isEmpty_iff.mp he
      rw [if_pos rfl]
      refine ⟨?_, ?_, ?_, ?_⟩
      · dsimp only
        rw [map_id_recoverStaleJobs]
        exact h1
      · exact h2
      · intro r hr
        rcases List.mem_map.mp hr with ⟨r0, hr0, heq⟩
        by_cases hc : r0.status = .processing
        · rw [if_pos hc] at heq
          subst heq
          exact h3 r0 hr0
        · rw [if_neg hc] at heq
          subst heq
          exact h3 _ hr0
      · intro snap hsnap
        rw [hnil] at hsnap
        exact absurd hsnap (List.not_mem_nil snap)

theorem stepOp_mono (s : QState) (op : QOp) (h : WF s) :
    ∀ j ∈ s.store, ∃ j2 ∈ (stepOp s op).store,
      j2.id = j.id ∧ j.attempts ≤ j2.attempts ∧
      (j.status = .failed → j2.status = .failed) := by
  obtain ⟨h1, h2, h3, h4⟩ := h
  intro j hj
  cases op with
  | enqueueOp data now newId =>
    simp only [stepOp]
    by_cases hmem : newId ∈ s.store.map Job.id
    · rw [if_pos hmem]
      exact ⟨j, hj, rfl, le_refl _, fun hf => hf⟩
    · rw [if_neg hmem]
      exact ⟨j, List.mem_append_left _ hj, rfl, le_refl _, fun hf => hf⟩
  | claimOp excl now =>
    simp only [stepOp]
    cases hsel : selectOldest excl s.store with
    | none => exact ⟨j, hj, rfl, le_refl _, fun hf => hf⟩
    | some j0 =>
      dsimp only
      have hj0mem := selectOldest_mem hsel
      have hj0cl := claimable_pending (selectOldest_claimable hsel)
      have hsnd : (claimOne s.store excl now).snd =
          updateById s.store j0.id
            (fun r => { r with status := .processing, startedAt := some now }) := by
        simp [claimOne, hsel]
      rw [hsnd]
      by_cases hc : j.id = j0.id
      · have heq : j = j0 := eq_of_mem_of_id_eq h1 hj hj0mem hc
        subst heq
        refine ⟨{ j with status := .processing, startedAt := some now },
          mem_updateById_self hj rfl, rfl, le_refl _, ?_⟩
        intro hf
        rw [hj0cl.1] at hf
        exact absurd hf (by decide)
      · exact ⟨j, mem_updateById_of_ne hj hc, rfl, le_refl _, fun hf => hf⟩
  | completeOp jobId now =>
    simp only [stepOp]
    cases hfind : s.inFlight.find? (fun x => x.id == jobId) with
    | none => exact ⟨j, hj, rfl, le_refl _, fun hf => hf⟩
    | some snap =>
      dsimp only
      have hsnapf : snap ∈ s.inFlight := List.mem_of_find?_eq_some hfind
      obtain ⟨hsnap1, hsnap2, hsnap3⟩ := h4 snap hsnapf
      by_cases hc : j.id = snap.id
      · have heq : j = snap := eq_of_mem_of_id_eq h1 hj hsnap1 hc
        refine ⟨{ j with status := .completed, completedAt := some now },
          mem_updateById_self hj hc, rfl, le_refl _, ?_⟩
        intro hf
        rw [heq, hsnap2] at hf
        exact absurd hf (by decide)
      · exact ⟨j, mem_updateById_of_ne hj hc, rfl, le_refl _, fun hf => hf⟩
  | failOp jobId msg =>
    simp only [stepOp]
    cases hfind : s.inFlight.find? (fun x => x.id == jobId) with
    | none => exact ⟨j, hj, rfl, le_refl _, fun hf => hf⟩
    | some snap =>
      dsimp only
      have hsnapf : snap ∈ s.inFlight := List.mem_of_find?_eq_some hfind
      obtain ⟨hsnap1, hsnap2, hsnap3⟩ := h4 snap hsnapf
      by_cases hc : j.id = snap.id
      · have heq : j = snap := eq_of_mem_of_id_eq h1 hj hsnap1 hc
        refine ⟨_, mem_updateById_self hj hc, rfl, ?_, ?_⟩
        · rw [heq]
          exact Nat.le_succ _
        · intro hf
          rw [heq, hsnap2] at hf
          exact absurd hf (by decide)
      · exact ⟨j, mem_updateById_of_ne hj hc, rfl, le_refl _, fun hf => hf⟩
  | recoverOp =>
    simp only [stepOp]
    cases he : s.inFlight.isEmpty with
    | false => exact ⟨j, hj, rfl, le_refl _, fun hf => hf⟩
    | true =>
      rw [if_pos rfl]
      by_cases hc : j.status = .processing
      · refine ⟨{ j with status := .pending, startedAt := none }, ?_, rfl,
          le_refl _, ?_⟩
        · have hm := List.mem_map_of_mem
            (fun r => if r.status = .processing
              then { r with status := JobStatus.pending, startedAt := none } else r) hj
          simpa [recoverStaleJobs, if_pos hc] using hm
        · intro hf
          rw [hc] at hf
          exact absurd hf.symm (by decide)
      · refine ⟨j, ?_, rfl, le_refl _, fun hf => hf⟩
        have hm := List.mem_map_of_mem
          (fun r => if r.status = .processing
            then { r with status := JobStatus.pending, startedAt := none } else r) hj
        simpa [recoverStaleJobs, if_neg hc] using hm

theorem runOps_WF_mono :
    ∀ (ops : List QOp) (s : QState), WF s →
      WF (runOps s ops) ∧
      ∀ j ∈ s.store, ∃ j2 ∈ (runOps s ops).store,
        j2.id = j.id ∧ j.attempts ≤ j2.attempts ∧
        (j.status = .failed → j2.status = .failed) := by
  intro ops
  induction ops with
  | nil =>
    intro s h
    exact ⟨h, fun j hj => ⟨j, hj, rfl, le_refl _, fun hf => hf⟩⟩
  | cons op rest ih =>
    intro s h
    have hstep := stepOp_WF s op h
    obtain ⟨hwf, hmono⟩ := ih (stepOp s op) hstep
    refine ⟨hwf, ?_⟩
    intro j hj
    obtain ⟨j1, hj1, hid1, hle1, hf1⟩ := stepOp_mono s op h j hj
    obtain ⟨j2, hj2, hid2, hle2, hf2⟩ := hmono j1 hj1
    exact ⟨j2, hj2, hid2.trans hid1, le_trans hle1 hle2, fun hf => hf2 (hf1 hf)⟩

/-- C7: starting from any well-formed queue state, every sequence of queue
operations (enqueue, claim, complete, fail/requeue, startup recovery)
preserves well-formedness; every job's attempts counter is monotonically
non-decreasing across the sequence and never exceeds its `max_attempts`; a
`failed` job never leaves `failed` (in particular never returns to
`pending`); and a failure step puts the updated row in `failed` exactly when
its new attempt count has reached its cap, in `pending` exactly when it has
not. -/
theorem queue_attempts_invariant :
    ∀ (s : QState) (ops : List QOp), WF s →
      WF (runOps s ops) ∧
      (∀ j ∈ (runOps s ops).store, j.attempts ≤ j.maxAttempts) ∧
      (∀ j ∈ s.store, ∃ j2 ∈ (runOps s ops).store,
        j2.id = j.id ∧ j.attempts ≤ j2.attempts ∧
        (j.status = .failed → j2.status = .failed)) ∧
      (∀ (jobId : Nat) (msg : String) (j2 : Job),
        j2 ∈ (stepOp s (.failOp jobId msg)).store → j2.id = jobId →
        (∃ snap ∈ s.inFlight, snap.id = jobId) →
        (j2.status = .failed ↔ j2.maxAttempts ≤ j2.attempts) ∧
        (j2.status = .pending ↔ j2.attempts < j2.maxAttempts)) := by
  intro s ops h
  obtain ⟨hwf, hmono⟩ := runOps_WF_mono ops s h
  refine ⟨hwf, hwf.2.2.1, hmono, ?_⟩
  intro jobId msg j2 hj2 hid hex
  obtain ⟨snap0, hsnap0, hsnap0id⟩ := hex
  cases hf : s.inFlight.find? (fun x => x.id == jobId) with
  | none =>
    have hnone := List.find?_eq_none.mp hf snap0 hsnap0
    exact absurd (by simp [hsnap0id]) hnone
  | some snap =>
    have hsnapid : snap.id = jobId := by
      have hb := List.find?_some hf
      simpa using hb
    have hsnapmem := h.2.2.2 snap (List.mem_of_find?_eq_some hf)
    simp only [stepOp, hf] at hj2
    rcases exists_of_mem_updateById hj2 with ⟨r, hr, heq⟩
    by_cases hc : r.id = snap.id
    · rw [if_pos hc] at heq
      subst heq
      have hrs : r = snap := eq_of_mem_of_id_eq h.1 hr hsnapmem.1 hc
      subst hrs
      by_cases hm : r.maxAttempts ≤ r.attempts + 1
      · dsimp only
        rw [if_pos hm]
        constructor
        · simp [hm]
        · simp
          omega
      · dsimp only
        rw [if_neg hm]
        constructor
        · simp
          omega
        · simp
          omega
    · rw [if_neg hc] at heq
      subst heq
      exact absurd (hid.trans hsnapid.symm) hc

/-- C7 witness: Scenario A (enqueue then three claim/fail cycles) preserves
well-formedness from the empty store, and a failure step from a state with
one in-flight snapshot yields a row whose failed/pending status matches its
attempt count against the cap. -/
theorem queue_attempts_invariant_witness :
    WF (runOps ⟨[], []⟩ sampleOps) ∧
    ((sampleFailedRow.status = .failed ↔
        sampleFailedRow.maxAttempts ≤ sampleFailedRow.attempts) ∧
     (sampleFailedRow.status = .pending ↔
        sampleFailedRow.attempts < sampleFailedRow.maxAttempts)) :=
  ⟨(queue_attempts_invariant ⟨[], []⟩ sampleOps (by decide)).1,
   (queue_attempts_invariant ⟨[sampleClaimed], [sampleClaimed]⟩ [] (by decide)).2.2.2
     1 "boom" sampleFailedRow (by decide) (by decide)
     ⟨sampleClaimed, by decide, by decide⟩⟩

end ReviewBot
